import Mathlib

/-!
Shallow embedding of the SPIRE agent core: the identity cache
(`pkg/agent/cache`), the client connection pool (`pkg/agent/manager`), and
the agent lifecycle (`pkg/agent/agent.go`).  Go maps are modelled as
association lists with unique keys; the mutexes guard whole operations, so
each Go method becomes a pure function from state to (result, state).
-/

namespace Spire

/-! ### Association-list primitives (model of a Go `map[string]V`) -/

/-- First-match lookup, the model of `v, found := m[k]`. -/
def lookupA {α : Type} : List (String × α) → String → Option α
  | [], _ => none
  | (k', v) :: rest, k => if k' = k then some v else lookupA rest k

/-- Store `v` under `k`, the model of `m[k] = v`: replace the first binding
of `k`, or append a fresh one. -/
def setA {α : Type} : List (String × α) → String → α → List (String × α)
  | [], k, v => [(k, v)]
  | (k', v') :: rest, k, v =>
    if k' = k then (k, v) :: rest else (k', v') :: setA rest k v

/-- Remove every binding of `k`, the model of `delete(m, k)`. -/
def eraseA {α : Type} : List (String × α) → String → List (String × α)
  | [], _ => []
  | (k', v) :: rest, k =>
    if k' = k then eraseA rest k else (k', v) :: eraseA rest k

theorem lookupA_setA_self {α : Type} (m : List (String × α)) (k : String) (v : α) :
    lookupA (setA m k v) k = some v := by
  induction m with
  | nil => simp [setA, lookupA]
  | cons kv rest ih =>
    obtain ⟨k', v'⟩ := kv
    by_cases h : k' = k
    · simp [setA, h, lookupA]
    · simp [setA, h, lookupA, ih]

theorem lookupA_setA_ne {α : Type} (m : List (String × α)) (k k' : String) (v : α)
    (h : k' ≠ k) : lookupA (setA m k v) k' = lookupA m k' := by
  induction m with
  | nil => simp [setA, lookupA, Ne.symm h]
  | cons kv rest ih =>
    obtain ⟨k₀, v₀⟩ := kv
    by_cases h0 : k₀ = k
    · subst h0
      simp [setA, lookupA, Ne.symm h]
    · simp [setA, h0, lookupA, ih]

theorem lookupA_eraseA_self {α : Type} (m : List (String × α)) (k : String) :
    lookupA (eraseA m k) k = none := by
  induction m with
  | nil => simp [eraseA, lookupA]
  | cons kv rest ih =>
    obtain ⟨k', v'⟩ := kv
    by_cases h : k' = k
    · simp [eraseA, h, ih]
    · simp [eraseA, h, lookupA, ih]

theorem mem_setA {α : Type} (m : List (String × α)) (k : String) (v : α) :
    ∀ kv ∈ setA m k v, kv = (k, v) ∨ kv ∈ m := by
  induction m with
  | nil => simp [setA]
  | cons kv₀ rest ih =>
    obtain ⟨k', v'⟩ := kv₀
    by_cases h : k' = k
    · intro kv hkv
      simp [setA, h] at hkv
      rcases hkv with h1 | h1
      · exact Or.inl (by simp [h1])
      · exact Or.inr (List.mem_cons_of_mem _ h1)
    · intro kv hkv
      simp [setA, h] at hkv
      rcases hkv with h1 | h1
      · exact Or.inr (by simp [h1])
      · rcases ih kv h1 with h2 | h2
        · exact Or.inl h2
        · exact Or.inr (List.mem_cons_of_mem _ h2)

theorem mem_eraseA {α : Type} (m : List (String × α)) (k : String) :
    ∀ kv ∈ eraseA m k, kv ∈ m ∧ kv.1 ≠ k := by
  induction m with
  | nil => simp [eraseA]
  | cons kv₀ rest ih =>
    obtain ⟨k', v'⟩ := kv₀
    by_cases h : k' = k
    · intro kv hkv
      simp [eraseA, h] at hkv
      exact ⟨List.mem_cons_of_mem _ (ih kv hkv).1, (ih kv hkv).2⟩
    · intro kv hkv
      simp [eraseA, h] at hkv
      rcases hkv with h1 | h1
      · subst h1
        exact ⟨List.mem_cons_self _ _, h⟩
      · exact ⟨List.mem_cons_of_mem _ (ih kv h1).1, (ih kv h1).2⟩

/-! ### Cache data model (`pkg/agent/cache`) -/

/-- `common.RegistrationEntry` restricted to the fields the cache key is
derived from: SpiffeId + ParentId + Selectors. -/
structure RegistrationEntry where
  spiffeId : String
  parentId : String
  selectors : List (String × String)
deriving DecidableEq, Repr

/-- A cache `Entry`: registration entry, SVID certificate, private key and
federated bundles.  Certificates, keys and bundle bytes are opaque to the
cache, so they are modelled by numeric identities. -/
structure Entry where
  registrationEntry : RegistrationEntry
  svid : Nat
  privateKey : Nat
  bundles : List (String × Nat)
deriving DecidableEq, Repr

/-- `cacheImpl`: map keyed by the derived registration-entry hash, holding
the list of entries ordered by SVID expiration date. -/
structure CacheImpl where
  cache : List (String × List Entry)
deriving DecidableEq, Repr

/-- `cacheImpl.Entry`: return the first (in force) entry for the derived
key, or absent.  (The Go code indexes `entries[0]`; on the invariant-holding
states every stored list is non-empty, which `head?` then hits.)
`hash` stands for `util.DeriveRegEntryhash`, a deterministic function of the
registration entry. -/
def entryOp (hash : RegistrationEntry → String) (c : CacheImpl)
    (regEntry : RegistrationEntry) : Option Entry :=
  match lookupA c.cache (hash regEntry) with
  | some entries => entries.head?
  | none => none

/-- `cacheImpl.SetEntry`: `c.cache[key] = append(c.cache[key], *entry)`. -/
def setEntry (hash : RegistrationEntry → String) (c : CacheImpl) (e : Entry) :
    CacheImpl :=
  let key := hash e.registrationEntry
  ⟨setA c.cache key (((lookupA c.cache key).getD []) ++ [e])⟩

/-- `cacheImpl.DeleteEntries`: drop the whole list for the key and return
how many entries it held; 0 when the key is absent. -/
def deleteEntries (hash : RegistrationEntry → String) (c : CacheImpl)
    (regEntry : RegistrationEntry) : Nat × CacheImpl :=
  let key := hash regEntry
  match lookupA c.cache key with
  | some entries => (entries.length, ⟨eraseA c.cache key⟩)
  | none => (0, c)

/-- `cacheImpl.DeleteEntry`: pop the first entry for the key; when the
remaining list is empty, delete the key; report whether a removal
happened. -/
def deleteEntry (hash : RegistrationEntry → String) (c : CacheImpl)
    (regEntry : RegistrationEntry) : Bool × CacheImpl :=
  let key := hash regEntry
  match lookupA c.cache key with
  | some entries =>
    if 0 < entries.length then
      let shifted := setA c.cache key (entries.drop 1)
      if (entries.drop 1).length = 0 then (true, ⟨eraseA shifted key⟩)
      else (true, ⟨shifted⟩)
    else (false, c)
  | none => (false, c)

/-- `cacheImpl.Entries`: the materialized snapshot holding the first (in
force) entry of every key.  (The Go code sends `e[0]` on a buffered channel;
on invariant-holding states every list is non-empty.) -/
def entriesOp (c : CacheImpl) : List Entry :=
  c.cache.filterMap fun kv => kv.2.head?

/-- `cacheImpl.IsEmpty`: `len(c.cache) == 0`. -/
def isEmpty (c : CacheImpl) : Bool :=
  c.cache.length = 0

/-- The documented cache invariant: every key present in the map holds a
non-empty entry list. -/
def cacheInv (c : CacheImpl) : Bool :=
  c.cache.all fun kv => !kv.2.isEmpty

/-- Distinct-keys well-formedness of an association list: a Go map never
binds the same key twice; the model mirrors that. -/
def nodupKeys {α : Type} : List (String × α) → Bool
  | [] => true
  | (k, _) :: rest => (lookupA rest k).isNone && nodupKeys rest

theorem cacheInv_iff (c : CacheImpl) :
    cacheInv c = true ↔ ∀ kv ∈ c.cache, kv.2 ≠ [] := by
  simp [cacheInv, List.all_eq_true, List.isEmpty_iff]

theorem filterMap_head_length (l : List (String × List Entry))
    (h : ∀ kv ∈ l, kv.2 ≠ []) :
    (l.filterMap fun kv => kv.2.head?).length = l.length := by
  induction l with
  | nil => simp
  | cons kv rest ih =>
    have hne : kv.2 ≠ [] := h kv (List.mem_cons_self _ _)
    obtain ⟨a, t, ht⟩ := List.exists_cons_of_ne_nil hne
    simp [List.filterMap_cons, ht, ih fun kv' hkv' => h kv' (List.mem_cons_of_mem _ hkv')]

/-! ### Sample inputs used by witnesses -/

def hashK : RegistrationEntry → String :=
  fun r => r.spiffeId ++ "|" ++ r.parentId

def regA : RegistrationEntry := ⟨"idA", "p", []⟩

def regB : RegistrationEntry := ⟨"idB", "p", []⟩

def entA : Entry := ⟨regA, 1, 10, []⟩

def entB : Entry := ⟨regA, 2, 20, []⟩

def entC : Entry := ⟨regB, 3, 30, []⟩

/-! ### Cache claims -/

/-- Claim C1: starting from a state with no entries for a descriptor's key,
after `SetEntry(d1)` then `SetEntry(d2)` for that descriptor, `Entry`
returns `d1`; the following `DeleteEntry` succeeds, after which `Entry`
returns `d2`. -/
theorem cache_rotation_order (hash : RegistrationEntry → String) (c : CacheImpl)
    (d1 d2 : Entry) (r : RegistrationEntry)
    (h1 : d1.registrationEntry = r) (h2 : d2.registrationEntry = r)
    (h0 : lookupA c.cache (hash r) = none) :
    entryOp hash (setEntry hash (setEntry hash c d1) d2) r = some d1 ∧
    (deleteEntry hash (setEntry hash (setEntry hash c d1) d2) r).1 = true ∧
    entryOp hash (deleteEntry hash (setEntry hash (setEntry hash c d1) d2) r).2 r
      = some d2 := by
  subst h1
  simp [setEntry, entryOp, deleteEntry, h2, h0, lookupA_setA_self]

theorem cache_rotation_order_witness :
    entryOp hashK (setEntry hashK (setEntry hashK ⟨[]⟩ entA) entB) regA = some entA ∧
    (deleteEntry hashK (setEntry hashK (setEntry hashK ⟨[]⟩ entA) entB) regA).1 = true ∧
    entryOp hashK (deleteEntry hashK (setEntry hashK (setEntry hashK ⟨[]⟩ entA) entB) regA).2 regA
      = some entB :=
  cache_rotation_order hashK ⟨[]⟩ entA entB regA rfl rfl rfl

/-- Claim C2: the cache invariant — every key present in the mapping holds a
non-empty entry list — is preserved by the mutating operations `SetEntry`,
`DeleteEntries` and `DeleteEntry` (a key whose last entry is removed is
deleted within the same operation); `Entry`, `Entries` and `IsEmpty` do not
modify the mapping at all (in this embedding they return no state). -/
theorem cache_invariant_preserved (hash : RegistrationEntry → String)
    (c : CacheImpl) (e : Entry) (r : RegistrationEntry)
    (h : cacheInv c = true) :
    cacheInv (setEntry hash c e) = true ∧
    cacheInv (deleteEntries hash c r).2 = true ∧
    cacheInv (deleteEntry hash c r).2 = true := by
  rw [cacheInv_iff] at h
  refine ⟨?_, ?_, ?_⟩
  · rw [cacheInv_iff]
    intro kv hkv
    rcases mem_setA _ _ _ kv hkv with h1 | h1
    · subst h1
      simp
    · exact h kv h1
  · rw [cacheInv_iff]
    intro kv hkv
    rcases hl : lookupA c.cache (hash r) with _ | entries
    · rw [deleteEntries] at hkv
      simp [hl] at hkv
      exact h kv hkv
    · rw [deleteEntries] at hkv
      simp [hl] at hkv
      exact h kv (mem_eraseA _ _ kv hkv).1
  · rw [cacheInv_iff]
    intro kv hkv
    rcases hl : lookupA c.cache (hash r) with _ | entries
    · simp only [deleteEntry, hl] at hkv
      exact h kv hkv
    · simp only [deleteEntry, hl] at hkv
      split at hkv
      · split at hkv
        · have hkv' : kv ∈ eraseA (setA c.cache (hash r) (entries.drop 1)) (hash r) := hkv
          have h2 := mem_eraseA _ _ kv hkv'
          rcases mem_setA _ _ _ kv h2.1 with h3 | h3
          · exact absurd (congrArg Prod.fst h3) h2.2
          · exact h kv h3
        · rename_i hdrop
          have hkv' : kv ∈ setA c.cache (hash r) (entries.drop 1) := hkv
          rcases mem_setA _ _ _ kv hkv' with h3 | h3
          · subst h3
            simpa [← List.length_eq_zero] using hdrop
          · exact h kv h3
      · exact h kv hkv

theorem cache_invariant_preserved_witness :
    cacheInv (setEntry hashK ⟨[(hashK regA, [entA])]⟩ entB) = true ∧
    cacheInv (deleteEntries hashK ⟨[(hashK regA, [entA])]⟩ regA).2 = true ∧
    cacheInv (deleteEntry hashK ⟨[(hashK regA, [entA])]⟩ regA).2 = true :=
  cache_invariant_preserved hashK ⟨[(hashK regA, [entA])]⟩ entB regA (by decide)

/-- Claim C3: `DeleteEntries` returns exactly the number of entries present
for the descriptor's derived key immediately before the call (0 when the
key is absent), and afterwards the key is absent from the mapping. -/
theorem cache_deleteEntries_count (hash : RegistrationEntry → String)
    (c : CacheImpl) (r : RegistrationEntry) :
    (deleteEntries hash c r).1 = ((lookupA c.cache (hash r)).getD []).length ∧
    lookupA (deleteEntries hash c r).2.cache (hash r) = none := by
  rcases hl : lookupA c.cache (hash r) with _ | entries
  · simp [deleteEntries, hl]
  · simp [deleteEntries, hl, lookupA_eraseA_self]

/-- Claim C4: on an invariant-satisfying cache state, the `Entries` snapshot
holds exactly one entry per key of the mapping (its length equals the number
of keys), each key's snapshot entry is its position-0 in-force entry, and
every snapshot entry comes from some key's position 0. -/
theorem cache_entries_snapshot (c : CacheImpl)
    (hinv : cacheInv c = true) (_hnd : nodupKeys c.cache = true) :
    (entriesOp c).length = c.cache.length ∧
    (∀ kv ∈ c.cache, ∃ d, kv.2.head? = some d ∧ d ∈ entriesOp c) ∧
    (∀ d ∈ entriesOp c, ∃ kv ∈ c.cache, kv.2.head? = some d) := by
  rw [cacheInv_iff] at hinv
  refine ⟨filterMap_head_length _ hinv, ?_, ?_⟩
  · intro kv hkv
    obtain ⟨a, t, ht⟩ := List.exists_cons_of_ne_nil (hinv kv hkv)
    refine ⟨a, by simp [ht], ?_⟩
    rw [entriesOp, List.mem_filterMap]
    exact ⟨kv, hkv, by simp [ht]⟩
  · intro d hd
    rw [entriesOp, List.mem_filterMap] at hd
    exact hd

theorem cache_entries_snapshot_witness :
    (entriesOp ⟨[(hashK regA, [entA, entB]), (hashK regB, [entC])]⟩).length
      = (CacheImpl.mk [(hashK regA, [entA, entB]), (hashK regB, [entC])]).cache.length ∧
    (∀ kv ∈ (CacheImpl.mk [(hashK regA, [entA, entB]), (hashK regB, [entC])]).cache,
      ∃ d, kv.2.head? = some d ∧
        d ∈ entriesOp ⟨[(hashK regA, [entA, entB]), (hashK regB, [entC])]⟩) ∧
    (∀ d ∈ entriesOp ⟨[(hashK regA, [entA, entB]), (hashK regB, [entC])]⟩,
      ∃ kv ∈ (CacheImpl.mk [(hashK regA, [entA, entB]), (hashK regB, [entC])]).cache,
        kv.2.head? = some d) :=
  cache_entries_snapshot ⟨[(hashK regA, [entA, entB]), (hashK regB, [entC])]⟩
    (by decide) (by decide)

/-! ### Connection pool data model (`pkg/agent/manager`, pool side)

Transport connections and duplex streams are opaque resources; the model
identifies them by numbers and records the `CloseSend`/`Close` calls the
code makes as an ordered event list.  The results of the external calls
(`grpc.Dial`, `nodeClient.FetchSVID`) are parameters of the embedding. -/

/-- A pool `client`: one gRPC connection plus one `FetchSVID` stream. -/
structure Client where
  conn : Nat
  stream : Nat
deriving DecidableEq, Repr

/-- `clientsPool`: map of clients keyed by SPIFFE ID. -/
structure ClientsPool where
  clients : List (String × Client)
deriving DecidableEq, Repr

/-- A resource-release call made by the pool code. -/
inductive CloseEvent where
  | closeSend (stream : Nat)
  | closeConn (conn : Nat)
deriving DecidableEq, Repr

/-- The error kinds the manager/pool code can return. -/
inductive PoolErr where
  | dialFailure
  | streamOpenFailure
deriving DecidableEq, Repr

/-- `clientsPool.get`: map lookup under the pool lock. -/
def getClient (p : ClientsPool) (spiffeID : String) : Option Client :=
  lookupA p.clients spiffeID

/-- `clientsPool.add`: close any pre-existing client for the ID (stream
half-close then connection close), then open a `FetchSVID` stream on `conn`
(`streamRes` is the external call's outcome) and, on success, install the
new client.  Returns (close events, error, pool after the call). -/
def addClient (p : ClientsPool) (spiffeID : String) (conn : Nat)
    (streamRes : Option Nat) : List CloseEvent × Option PoolErr × ClientsPool :=
  let closes := match getClient p spiffeID with
    | some c => [CloseEvent.closeSend c.stream, CloseEvent.closeConn c.conn]
    | none => []
  match streamRes with
  | none => (closes, some PoolErr.streamOpenFailure, p)
  | some s => (closes, none, ⟨setA p.clients spiffeID ⟨conn, s⟩⟩)

/-- The `for _, id := range spiffeIDs` loop of `manager.newClient`:
`add` each ID on the shared connection, stopping at the first error.
`streamFn` gives the `FetchSVID` outcome for each ID. -/
def addAll (p : ClientsPool) (ids : List String) (conn : Nat)
    (streamFn : String → Option Nat) :
    List CloseEvent × Option PoolErr × ClientsPool :=
  match ids with
  | [] => ([], none, p)
  | sid :: rest =>
    let r1 := addClient p sid conn (streamFn sid)
    match r1.2.1 with
    | some e => (r1.1, some e, r1.2.2)
    | none =>
      let r2 := addAll r1.2.2 rest conn streamFn
      (r1.1 ++ r2.1, r2.2.1, r2.2.2)

/-- "If there is no pool yet, create one": the pool the manager works on. -/
def poolOf : Option ClientsPool → ClientsPool
  | none => ⟨[]⟩
  | some p => p

/-- `manager.newClient`: create the pool if absent, dial once (`dialRes` is
the `grpc.Dial` outcome), then register every requested SPIFFE ID on the
new connection; on a registration error, close the new connection and
return the error.  Returns (close events, error, the manager's pool after
the call). -/
def newClient (st : Option ClientsPool) (ids : List String)
    (dialRes : Except PoolErr Nat) (streamFn : String → Option Nat) :
    List CloseEvent × Option PoolErr × ClientsPool :=
  let pool := poolOf st
  match dialRes with
  | .error e => ([], some e, pool)
  | .ok conn =>
    let r := addAll pool ids conn streamFn
    match r.2.1 with
    | some e => (r.1 ++ [CloseEvent.closeConn conn], some e, r.2.2)
    | none => (r.1, none, r.2.2)

theorem addAll_ok (p : ClientsPool) (pre : List String) (conn : Nat)
    (f : String → Option Nat) (h : ∀ sid ∈ pre, (f sid).isSome = true) :
    (addAll p pre conn f).2.1 = none ∧
    (∀ sid, sid ∉ pre →
      getClient (addAll p pre conn f).2.2 sid = getClient p sid) ∧
    (∀ sid ∈ pre, ∃ s, f sid = some s ∧
      getClient (addAll p pre conn f).2.2 sid = some ⟨conn, s⟩) := by
  induction pre generalizing p with
  | nil => simp [addAll]
  | cons sid0 rest ih =>
    obtain ⟨s0, hs0⟩ := Option.isSome_iff_exists.mp (h sid0 (List.mem_cons_self _ _))
    have hrest : ∀ sid ∈ rest, (f sid).isSome = true :=
      fun sid hs => h sid (List.mem_cons_of_mem _ hs)
    have ihr := ih ⟨setA p.clients sid0 ⟨conn, s0⟩⟩ hrest
    refine ⟨?_, ?_, ?_⟩
    · simp only [addAll, addClient, hs0]
      exact ihr.1
    · intro sid hsid
      have hne : sid ≠ sid0 := fun hh => hsid (hh ▸ List.mem_cons_self _ _)
      have hnr : sid ∉ rest := fun hh => hsid (List.mem_cons_of_mem _ hh)
      simp only [addAll, addClient, hs0]
      rw [ihr.2.1 sid hnr]
      simp [getClient, lookupA_setA_ne _ _ _ _ hne]
    · intro sid hsid
      rcases List.mem_cons.mp hsid with hq | hq
      · subst hq
        by_cases hr : sid ∈ rest
        · obtain ⟨s, hs, hg⟩ := ihr.2.2 sid hr
          refine ⟨s, hs, ?_⟩
          simp only [addAll, addClient, hs0]
          exact hg
        · refine ⟨s0, hs0, ?_⟩
          simp only [addAll, addClient, hs0]
          rw [ihr.2.1 sid hr]
          simp [getClient, lookupA_setA_self]
      · obtain ⟨s, hs, hg⟩ := ihr.2.2 sid hq
        refine ⟨s, hs, ?_⟩
        simp only [addAll, addClient, hs0]
        exact hg

theorem addAll_append (p : ClientsPool) (l1 l2 : List String) (conn : Nat)
    (f : String → Option Nat) (h : (addAll p l1 conn f).2.1 = none) :
    addAll p (l1 ++ l2) conn f
      = ((addAll p l1 conn f).1
           ++ (addAll (addAll p l1 conn f).2.2 l2 conn f).1,
         (addAll (addAll p l1 conn f).2.2 l2 conn f).2.1,
         (addAll (addAll p l1 conn f).2.2 l2 conn f).2.2) := by
  induction l1 generalizing p with
  | nil => simp [addAll]
  | cons sid0 rest ih =>
    cases he : (addClient p sid0 conn (f sid0)).2.1 with
    | some e =>
      rw [addAll] at h
      simp only [he] at h
      exact absurd h (by simp)
    | none =>
      rw [addAll] at h
      simp only [he] at h
      simp only [List.cons_append, addAll, he, List.append_eq]
      rw [ih _ h]
      simp [List.append_assoc]

/-- Claim C5: registering a connection under an identity that already has a
pooled entry (when the stream open succeeds) emits exactly one stream
half-close and one connection close for the prior entry — nothing else —
before installing the new one, and `get` afterwards returns only the newly
installed client. -/
theorem pool_replace_safety (p : ClientsPool) (sid : String) (conn s : Nat)
    (old : Client) (hold : getClient p sid = some old) :
    (addClient p sid conn (some s)).1
      = [CloseEvent.closeSend old.stream, CloseEvent.closeConn old.conn] ∧
    (addClient p sid conn (some s)).2.1 = none ∧
    getClient (addClient p sid conn (some s)).2.2 sid = some ⟨conn, s⟩ := by
  have hold' : lookupA p.clients sid = some old := hold
  refine ⟨?_, ?_, ?_⟩ <;>
    simp [addClient, getClient, hold', lookupA_setA_self]

theorem pool_replace_safety_witness :
    (addClient ⟨[("wl1", ⟨5, 6⟩)]⟩ "wl1" 7 (some 8)).1
      = [CloseEvent.closeSend 6, CloseEvent.closeConn 5] ∧
    (addClient ⟨[("wl1", ⟨5, 6⟩)]⟩ "wl1" 7 (some 8)).2.1 = none ∧
    getClient (addClient ⟨[("wl1", ⟨5, 6⟩)]⟩ "wl1" 7 (some 8)).2.2 "wl1"
      = some ⟨7, 8⟩ :=
  pool_replace_safety ⟨[("wl1", ⟨5, 6⟩)]⟩ "wl1" 7 8 ⟨5, 6⟩ rfl

/-- Claim C6: when the transport dial fails, `newClient` returns the dial
error, performs no close calls, and leaves the pool state unchanged. -/
theorem pool_dial_failure_no_change (p : ClientsPool) (ids : List String)
    (e : PoolErr) (streamFn : String → Option Nat) :
    newClient (some p) ids (Except.error e) streamFn = ([], some e, p) := rfl

/-- Claim C7: in a multi-identity `newClient` call whose dial succeeded, if
the stream open fails for identity `bad` after succeeding for every earlier
identity, the call returns the stream-open error, closes the newly opened
connection, and every earlier identity remains in the pool bound to that
(now closed) connection. -/
theorem pool_partial_failure_dangling (st : Option ClientsPool)
    (pre : List String) (bad : String) (rest : List String) (conn : Nat)
    (streamFn : String → Option Nat)
    (hpre : ∀ sid ∈ pre, (streamFn sid).isSome = true)
    (hbad : streamFn bad = none) :
    (newClient st (pre ++ bad :: rest) (Except.ok conn) streamFn).2.1
      = some PoolErr.streamOpenFailure ∧
    CloseEvent.closeConn conn
      ∈ (newClient st (pre ++ bad :: rest) (Except.ok conn) streamFn).1 ∧
    (∀ sid ∈ pre, ∃ s, streamFn sid = some s ∧
      getClient (newClient st (pre ++ bad :: rest) (Except.ok conn) streamFn).2.2 sid
        = some ⟨conn, s⟩) := by
  have hok := addAll_ok (poolOf st) pre conn streamFn hpre
  have happ := addAll_append (poolOf st) pre (bad :: rest) conn streamFn hok.1
  have hbs1 :
      (addAll (addAll (poolOf st) pre conn streamFn).2.2 (bad :: rest) conn
        streamFn).2.1 = some PoolErr.streamOpenFailure := by
    simp [addAll, addClient, hbad]
  have hbs2 :
      (addAll (addAll (poolOf st) pre conn streamFn).2.2 (bad :: rest) conn
        streamFn).2.2 = (addAll (poolOf st) pre conn streamFn).2.2 := by
    simp [addAll, addClient, hbad]
  refine ⟨?_, ?_, ?_⟩
  · simp [newClient, happ, hbs1]
  · simp [newClient, happ, hbs1]
  · intro sid hsid
    obtain ⟨s, hs, hg⟩ := hok.2.2 sid hsid
    refine ⟨s, hs, ?_⟩
    simp only [newClient, happ, hbs1, hbs2]
    exact hg

theorem pool_partial_failure_dangling_witness :
    (newClient (some ⟨[]⟩) (["wl1"] ++ "wl2" :: []) (Except.ok 7)
        (fun sid => if sid = "wl1" then some 9 else none)).2.1
      = some PoolErr.streamOpenFailure ∧
    CloseEvent.closeConn 7
      ∈ (newClient (some ⟨[]⟩) (["wl1"] ++ "wl2" :: []) (Except.ok 7)
          (fun sid => if sid = "wl1" then some 9 else none)).1 ∧
    (∀ sid ∈ ["wl1"], ∃ s,
      (fun sid => if sid = "wl1" then some 9 else none) sid = some s ∧
      getClient (newClient (some ⟨[]⟩) (["wl1"] ++ "wl2" :: []) (Except.ok 7)
          (fun sid => if sid = "wl1" then some 9 else none)).2.2 sid
        = some ⟨7, s⟩) :=
  pool_partial_failure_dangling (some ⟨[]⟩) ["wl1"] "wl2" [] 7
    (fun sid => if sid = "wl1" then some 9 else none) (by decide) (by decide)

/-- Claim C10: when registering an identity that already has a pooled entry
and the stream open fails, the prior entry's stream and connection have
already been closed, yet the pool is unchanged, so `get` still returns the
closed prior entry instead of absent. -/
theorem pool_failed_replace_dangling (p : ClientsPool) (sid : String)
    (conn : Nat) (old : Client) (hold : getClient p sid = some old) :
    (addClient p sid conn none).1
      = [CloseEvent.closeSend old.stream, CloseEvent.closeConn old.conn] ∧
    (addClient p sid conn none).2.1 = some PoolErr.streamOpenFailure ∧
    (addClient p sid conn none).2.2 = p ∧
    getClient (addClient p sid conn none).2.2 sid = some old := by
  have hold' : lookupA p.clients sid = some old := hold
  refine ⟨?_, ?_, ?_, ?_⟩ <;> simp [addClient, getClient, hold']

theorem pool_failed_replace_dangling_witness :
    (addClient ⟨[("wl1", ⟨5, 6⟩)]⟩ "wl1" 7 none).1
      = [CloseEvent.closeSend 6, CloseEvent.closeConn 5] ∧
    (addClient ⟨[("wl1", ⟨5, 6⟩)]⟩ "wl1" 7 none).2.1
      = some PoolErr.streamOpenFailure ∧
    (addClient ⟨[("wl1", ⟨5, 6⟩)]⟩ "wl1" 7 none).2.2 = ⟨[("wl1", ⟨5, 6⟩)]⟩ ∧
    getClient (addClient ⟨[("wl1", ⟨5, 6⟩)]⟩ "wl1" 7 none).2.2 "wl1"
      = some ⟨5, 6⟩ :=
  pool_failed_replace_dangling ⟨[("wl1", ⟨5, 6⟩)]⟩ "wl1" 7 ⟨5, 6⟩ rfl

/-! ### Agent lifecycle (`pkg/agent/agent.go`)

The collaborators (catalog, manager, endpoints) are opaque handles; the
agent holds each as `Option`, mirroring the nilable Go fields.  The outcome
of `manager.New` and `Manager.Start` are parameters of the embedding. -/

/-- A `manager.Manager` handle, opaque to the agent. -/
structure ManagerHandle where
  id : Nat
deriving DecidableEq, Repr

/-- The `Agent` fields the lifecycle claims touch: nilable handles for the
catalog (plugin host), the manager and the endpoints. -/
structure AgentState where
  catalog : Option Nat
  manager : Option ManagerHandle
  endpoints : Option Nat
deriving DecidableEq, Repr

/-- The error kinds `Agent.startManager` can surface. -/
inductive AgentErr where
  | doubleStart
  | managerNewFailed
  | managerStartFailed
deriving DecidableEq, Repr

/-- `Agent.startManager`: under the agent lock, fail with the double-start
error when a manager handle is already set; otherwise build a manager
(`newRes` is the `manager.New` outcome), install it and return the result
of its `Start` call (`startRes`, `none` for a nil error). -/
def startManager (a : AgentState) (newRes : Except AgentErr ManagerHandle)
    (startRes : Option AgentErr) : Option AgentErr × AgentState :=
  match a.manager with
  | some _ => (some AgentErr.doubleStart, a)
  | none =>
    match newRes with
    | .error e => (some e, a)
    | .ok mgr => (startRes, { a with manager := some mgr })

/-- A teardown step performed by `Agent.shutdown`. -/
inductive StopEvent where
  | stopEndpoints
  | stopManager
  | stopCatalog
deriving DecidableEq, Repr

/-- `Agent.shutdown`: stop the endpoints if present, then the manager if
present, then the catalog if present, in that textual order. -/
def shutdown (a : AgentState) : List StopEvent :=
  (match a.endpoints with
    | some _ => [StopEvent.stopEndpoints]
    | none => []) ++
  (match a.manager with
    | some _ => [StopEvent.stopManager]
    | none => []) ++
  (match a.catalog with
    | some _ => [StopEvent.stopCatalog]
    | none => [])

/-- Claim C8: requesting manager start while a handle is already set fails
with the double-start error and leaves the whole agent state unchanged,
whatever `manager.New` and `Start` would have produced. -/
theorem agent_double_start (a : AgentState)
    (newRes : Except AgentErr ManagerHandle) (startRes : Option AgentErr)
    (m : ManagerHandle) (h : a.manager = some m) :
    startManager a newRes startRes = (some AgentErr.doubleStart, a) := by
  simp [startManager, h]

theorem agent_double_start_witness :
    startManager ⟨some 1, some ⟨4⟩, some 2⟩ (Except.ok ⟨9⟩) none
      = (some AgentErr.doubleStart, ⟨some 1, some ⟨4⟩, some 2⟩) :=
  agent_double_start ⟨some 1, some ⟨4⟩, some 2⟩ (Except.ok ⟨9⟩) none ⟨4⟩ rfl

/-- Claim C9: teardown performs its steps in the order endpoints, manager,
catalog (a sublist of that full order), and each step occurs exactly when
its component handle is present — an absent component is skipped. -/
theorem agent_shutdown_order (a : AgentState) :
    (shutdown a).Sublist
      [StopEvent.stopEndpoints, StopEvent.stopManager, StopEvent.stopCatalog] ∧
    (StopEvent.stopEndpoints ∈ shutdown a ↔ a.endpoints.isSome = true) ∧
    (StopEvent.stopManager ∈ shutdown a ↔ a.manager.isSome = true) ∧
    (StopEvent.stopCatalog ∈ shutdown a ↔ a.catalog.isSome = true) := by
  obtain ⟨cat, mgr, ep⟩ := a
  cases cat <;> cases mgr <;> cases ep <;>
    refine ⟨?_, ?_, ?_, ?_⟩ <;> simp [shutdown]

end Spire
